import Mathlib

/-
Verification of the Semantic Query Translation Engine
(src/apps/mcp-server/src/mcp-server/tools/build_query_from_description/logic.ts).

The TypeScript source is embedded shallowly:
  - strings are Lean String / List Char; JavaScript toLowerCase, trim,
    includes, endsWith are modelled on ASCII data,
  - the six regular expressions of parseDescription, and the business-rule
    regex, are compiled by hand into token lists interpreted by a small
    backtracking matcher (run / search) implementing the JavaScript
    semantics for exactly the constructs those patterns use: case
    insensitive literals, lazy capturing star, greedy digit plus, greedy
    whitespace star, optional question mark, single-character class, and
    the end anchor, with leftmost-match search,
  - thrown McpError values become the Except error branch,
  - JavaScript objects used as ordered string maps (contract.tables,
    table.columns) become association lists in declaration order.
-/

namespace Concord

/-- Character list of a string literal. -/
def strL (s : String) : List Char := s.data

/-- Single quote character, written by code to keep source text plain. -/
def qc : Char := Char.ofNat 39

/-- Double quote character. -/
def dq : Char := Char.ofNat 34

/-- Single quote as a one-character string. -/
def sq : String := String.singleton qc

/-- ASCII model of the JavaScript whitespace class used by trim and by
the regex class backslash-s. -/
def isWsChar (c : Char) : Bool :=
  c = ' ' || c = Char.ofNat 9 || c = Char.ofNat 10 || c = Char.ofNat 13 ||
  c = Char.ofNat 11 || c = Char.ofNat 12

/-- JavaScript String.prototype.trim on character lists. -/
def jsTrim (s : List Char) : List Char :=
  ((s.dropWhile isWsChar).reverse.dropWhile isWsChar).reverse

/-- Lower-casing of a character list, the model of toLowerCase. -/
def lcList (s : List Char) : List Char := s.map Char.toLower

/-- Substring test: does the second list contain the first one?  Models
JavaScript String.prototype.includes. -/
def containsSub (n : List Char) : List Char → Bool
  | [] => n.isEmpty
  | c :: r => n.isPrefixOf (c :: r) || containsSub n r

/-- Case-insensitive includes, as written in the source:
hay.toLowerCase().includes(needle.toLowerCase()). -/
def lcIncludes (hay needle : List Char) : Bool :=
  containsSub (lcList needle) (lcList hay)

/-- parseInt(s, 10) on a run of decimal digits. -/
def digitsToNat (s : List Char) : Nat :=
  s.foldl (fun a c => a * 10 + (c.toNat - 48)) 0

/-- Array.prototype.join with a separator, as JavaScript defines it. -/
def joinSep (sep : String) : List String → String
  | [] => ""
  | [x] => x
  | x :: y :: r => x ++ sep ++ joinSep sep (y :: r)

/-- Number of question-mark characters in a string. -/
def cntQ (s : String) : Nat := s.data.count '?'

/-- Tokens of the regex fragments appearing in the source. -/
inductive Tok where
  | lit : List Char → Tok
  | lazyStar : Tok
  | digits : Tok
  | wsStar : Tok
  | optQ : Tok
  | charSet : List Char → Tok
  | endAnchor : Tok

/-- Result of a match: the capture groups in order, and the input
remaining after the matched text. -/
abbrev MatchRes := List (List Char) × List Char

/-- Case-insensitive literal consumption: returns the rest of the input
when the literal is a case-insensitive prefix of it. -/
def lcDrop : List Char → List Char → Option (List Char)
  | [], s => some s
  | _ :: _, [] => none
  | l :: ls, c :: cs => if l.toLower = c.toLower then lcDrop ls cs else none

/-- Lazy capturing star: first try the continuation here (shortest
capture), extend the capture one character at a time on failure. -/
def lazyRun (k : List Char → Option MatchRes) : List Char → Option MatchRes
  | [] =>
    match k [] with
    | some (caps, rest) => some ([] :: caps, rest)
    | none => none
  | c :: r =>
    match k (c :: r) with
    | some (caps, rest) => some ([] :: caps, rest)
    | none =>
      match lazyRun k r with
      | some (cap :: caps, rest) => some ((c :: cap) :: caps, rest)
      | _ => none

/-- Greedy capturing digit-plus: consume at least one digit, preferring
the longest digit run, backtracking to shorter runs on failure. -/
def digitsRun (k : List Char → Option MatchRes) : List Char → Option MatchRes
  | [] => none
  | c :: r =>
    if c.isDigit then
      match digitsRun k r with
      | some (cap :: caps, rest) => some ((c :: cap) :: caps, rest)
      | _ =>
        match k r with
        | some (caps, rest) => some ([c] :: caps, rest)
        | none => none
    else none

/-- Greedy non-capturing whitespace star. -/
def wsRun (k : List Char → Option MatchRes) : List Char → Option MatchRes
  | [] => k []
  | c :: r =>
    if isWsChar c then
      match wsRun k r with
      | some m => some m
      | none => k (c :: r)
    else k (c :: r)

/-- Greedy non-capturing optional question mark. -/
def optQRun (k : List Char → Option MatchRes) : List Char → Option MatchRes
  | [] => k []
  | c :: r =>
    if c = '?' then
      match k r with
      | some m => some m
      | none => k (c :: r)
    else k (c :: r)

/-- Matcher for a token list at the current position. -/
def run : List Tok → List Char → Option MatchRes
  | [], s => some ([], s)
  | Tok.lit l :: ts, s =>
    match lcDrop l s with
    | some r => run ts r
    | none => none
  | Tok.lazyStar :: ts, s => lazyRun (run ts) s
  | Tok.digits :: ts, s => digitsRun (run ts) s
  | Tok.wsStar :: ts, s => wsRun (run ts) s
  | Tok.optQ :: ts, s => optQRun (run ts) s
  | Tok.charSet cs :: ts, s =>
    match s with
    | [] => none
    | c :: r => if cs.contains c then run ts r else none
  | Tok.endAnchor :: ts, s =>
    match s with
    | [] => run ts []
    | _ :: _ => none

/-- Leftmost-match search, the behaviour of String.prototype.match for an
unanchored pattern: try each start position from the left. -/
def search (toks : List Tok) : List Char → Option MatchRes
  | [] => run toks []
  | c :: r =>
    match run toks (c :: r) with
    | some m => some m
    | none => search toks r

/-- Column description from the data contract
(packages/data-contract/src/reader.ts, interface Column).  businessRules
is optional there, hence the Option. -/
structure ColumnDef where
  businessName : String
  description : String
  dataType : String
  businessRules : Option (List String)
deriving DecidableEq

/-- Table description from the data contract (interface Table).  The
columns object is an ordered string map, modelled as an association list
in declaration order. -/
structure TableDef where
  businessName : String
  description : String
  columns : List (String × ColumnDef)
deriving DecidableEq

/-- The data contract (interface DataContract); tools are irrelevant to
the engine and omitted. -/
structure DataContract where
  tables : List (String × TableDef)
  abbreviations : List (String × String)
deriving DecidableEq

/-- One filter of a parsed intent. -/
structure QFilter where
  column : String
  operator : String
  value : String
deriving DecidableEq

/-- Entities extracted by a sentence pattern of parseDescription. -/
structure ParsedIntent where
  target : String
  columns : List String
  filters : List QFilter
deriving DecidableEq

/-- Outcome of the entities function of a pattern: an intent, or the
McpError thrown by the two join-shaped patterns. -/
inductive PatResult where
  | intent : ParsedIntent → PatResult
  | unsupported : PatResult
deriving DecidableEq

/-- One entry of the supportedPatterns array: the compiled regex and the
entities extractor over the capture groups (group k of the JavaScript
match object is entry k-1 of the capture list; absent groups default to
the empty string, which never happens for these patterns). -/
structure Pattern where
  toks : List Tok
  entities : List (List Char) → PatResult

/-- String of a capture. -/
def strOf (cs : List Char) : String := String.mk cs

/-- Pattern: show me the (.*?) for the (.*?) with id (backslash-d+), case
insensitive, unanchored. -/
def pat1 : Pattern :=
  { toks := [Tok.lit (strL "show me the "), Tok.lazyStar,
             Tok.lit (strL " for the "), Tok.lazyStar,
             Tok.lit (strL " with id "), Tok.digits],
    entities := fun caps =>
      PatResult.intent
        { target := strOf (jsTrim (caps.getD 1 [])),
          columns := [strOf (jsTrim (caps.getD 0 []))],
          filters := [{ column := "id", operator := "=",
                        value := strOf (caps.getD 2 []) }] } }

/-- Pattern: which sales orders are (.*?) optional-question-mark end. -/
def pat2 : Pattern :=
  { toks := [Tok.lit (strL "which sales orders are "), Tok.lazyStar,
             Tok.optQ, Tok.endAnchor],
    entities := fun caps =>
      PatResult.intent
        { target := "sales orders",
          columns := ["id"],
          filters := [{ column := "status", operator := "=",
                        value := strOf (jsTrim (caps.getD 0 [])) }] } }

/-- Pattern: list all (.*?) in the quote (.*?) quote, where quote is a
single or double quote character. -/
def pat3 : Pattern :=
  { toks := [Tok.lit (strL "list all "), Tok.lazyStar,
             Tok.lit (strL " in the "), Tok.charSet [qc, dq],
             Tok.lazyStar, Tok.charSet [qc, dq]],
    entities := fun caps =>
      PatResult.intent
        { target := strOf (jsTrim (caps.getD 1 [])),
          columns := ["*"],
          filters := [] } }

/-- Pattern: what is the name of the (.*?) with id (backslash-d+)
optional-question-mark end. -/
def pat4 : Pattern :=
  { toks := [Tok.lit (strL "what is the name of the "), Tok.lazyStar,
             Tok.lit (strL " with id "), Tok.digits,
             Tok.optQ, Tok.endAnchor],
    entities := fun caps =>
      PatResult.intent
        { target := strOf (jsTrim (caps.getD 0 [])),
          columns := ["name"],
          filters := [{ column := "id", operator := "=",
                        value := strOf (jsTrim (caps.getD 1 [])) }] } }

/-- Join-shaped pattern about quantities per product in an order; its
entities function always throws UnsupportedOperation. -/
def pat5 : Pattern :=
  { toks := [Tok.lit
               (strL "what was the quantity of each product sold in order number "),
             Tok.digits, Tok.optQ, Tok.endAnchor],
    entities := fun _ => PatResult.unsupported }

/-- Join-shaped pattern about the customer who placed an order; its
entities function always throws UnsupportedOperation. -/
def pat6 : Pattern :=
  { toks := [Tok.lit
               (strL "find the name of the customer who placed order number "),
             Tok.digits, Tok.optQ, Tok.endAnchor],
    entities := fun _ => PatResult.unsupported }

/-- The supportedPatterns array, in source order. -/
def supportedPatterns : List Pattern := [pat1, pat2, pat3, pat4, pat5, pat6]

/-- parseDescription: return the entities of the first pattern matching
the description, none when no pattern matches at all. -/
def parseDescription (description : String) : Option PatResult :=
  supportedPatterns.findSome? fun p =>
    (search p.toks description.data).map fun m => p.entities m.1

/-- findTableByBusinessName: first table, in contract declaration order,
whose businessName contains the requested name case-insensitively. -/
def findTableByBusinessName (contract : DataContract) (businessName : String) :
    Option (String × TableDef) :=
  contract.tables.find? fun p => lcIncludes p.2.businessName.data businessName.data

/-- findColumnByBusinessName: the special cases for the logical names id
and status on the physical column name, then the generic case-insensitive
businessName substring search; each loop returns its first hit, and an
unsuccessful special case falls through to the generic search. -/
def findColumnByBusinessName (table : TableDef) (businessName : String) :
    Option (String × ColumnDef) :=
  match (if lcList businessName.data = strL "id" then
           table.columns.find? fun p =>
             (strL "_id").isSuffixOf p.1.data || p.1 == "id"
         else none) with
  | some r => some r
  | none =>
    match (if lcList businessName.data = strL "status" then
             table.columns.find? fun p =>
               (strL "_stat").isSuffixOf p.1.data ||
               (strL "_status").isSuffixOf p.1.data
           else none) with
    | some r => some r
    | none =>
      table.columns.find? fun p =>
        lcIncludes p.2.businessName.data businessName.data

/-- Compiled business-rule regex (backslash-d+) colon backslash-s star
quote (.*?) quote, global flag; captures are the code digits and the
label. -/
def ruleToks : List Tok :=
  [Tok.digits, Tok.lit [Char.ofNat 58], Tok.wsStar,
   Tok.charSet [qc], Tok.lazyStar, Tok.charSet [qc]]

/-- All occurrences found by repeated exec of the business-rule regex;
each step resumes after the end of the previous match, as the global flag
does.  Every match consumes at least one character, so the fuel, one more
than the input length, is never exhausted. -/
def ruleOccsF : Nat → List Char → List (List Char × List Char)
  | 0, _ => []
  | f + 1, s =>
    match search ruleToks s with
    | some ([code, label], rest) => (code, label) :: ruleOccsF f rest
    | _ => []

/-- Occurrence list of one rule string. -/
def ruleOccs (s : List Char) : List (List Char × List Char) :=
  ruleOccsF (s.length + 1) s

/-- A string or number value, the union type of the params entries. -/
inductive JVal where
  | str : String → JVal
  | num : Nat → JVal
deriving DecidableEq

/-- findColumnValueFromBusinessRule: scan every rule for occurrences of
the coded-value shape; on the first occurrence whose label equals the
value case-insensitively return parseInt of the code, otherwise return
the value itself.  The source iterates column.businessRules directly; it
is only reached when that field is present, so the getD default is dead
code. -/
def findColumnValueFromBusinessRule (column : ColumnDef) (value : String) : JVal :=
  match (column.businessRules.getD []).findSome? (fun rule =>
      (ruleOccs rule.data).findSome? (fun occ =>
        if lcList occ.2 == lcList value.data then some (digitsToNat occ.1)
        else none)) with
  | some n => JVal.num n
  | none => JVal.str value

/-- Filter-value mapping step of buildQueryFromDescriptionLogic: the
business-rule lookup runs only when businessRules is present and
non-empty; the nullish fallback of the source is dead code because
findColumnValueFromBusinessRule is total. -/
def mappedValue (cd : ColumnDef) (v : String) : JVal :=
  match cd.businessRules with
  | some rs => if rs.length > 0 then findColumnValueFromBusinessRule cd v
               else JVal.str v
  | none => JVal.str v

/-- Error codes used by the tool. -/
inductive BaseErrorCode where
  | UNSUPPORTED_OPERATION : BaseErrorCode
  | INVALID_INPUT : BaseErrorCode
deriving DecidableEq

/-- McpError, modelled as its code and message. -/
structure McpError where
  code : BaseErrorCode
  message : String
deriving DecidableEq

/-- Successful output of the tool. -/
structure QueryOutput where
  sql_query : String
  params : List JVal
deriving DecidableEq

/-- Message of the UnsupportedOperation errors, identical for the
no-pattern case and the two join-shaped patterns. -/
def unsupportedMsg : String :=
  "That request is not supported by the query builder yet. Try rephrasing or pick from the supported set."

/-- Message of the table-resolution failure. -/
def tableNotFoundMsg (t : String) : String :=
  "Could not find a table matching " ++ sq ++ t ++ sq ++ "."

/-- Message of the column-resolution failures. -/
def columnNotFoundMsg (c t : String) : String :=
  "Could not find a column matching " ++ sq ++ c ++ sq ++
  " in table " ++ sq ++ t ++ sq ++ "."

/-- Wildcard expansion: Object.keys of the resolved table joined with a
comma and space. -/
def allColsJoined (t : TableDef) : String :=
  joinSep ", " (t.columns.map fun p => p.1)

/-- Resolution of one requested output column. -/
def resolveSelectColumn (tableInfo : String × TableDef) (colName : String) :
    Except McpError String :=
  if colName = "*" then Except.ok (allColsJoined tableInfo.2)
  else
    match findColumnByBusinessName tableInfo.2 colName with
    | some ci => Except.ok ci.1
    | none => Except.error
        { code := BaseErrorCode.INVALID_INPUT,
          message := columnNotFoundMsg colName tableInfo.1 }

/-- The selectColumns map of the source: sequential, first thrown error
aborts. -/
def mapResolve (tableInfo : String × TableDef) :
    List String → Except McpError (List String)
  | [] => Except.ok []
  | colName :: rest =>
    match resolveSelectColumn tableInfo colName with
    | Except.error e => Except.error e
    | Except.ok s =>
      match mapResolve tableInfo rest with
      | Except.error e => Except.error e
      | Except.ok ss => Except.ok (s :: ss)

/-- The filters forEach of the source, producing the where clauses and
the params in filter order; the first resolution failure aborts. -/
def processFilters (tableInfo : String × TableDef) :
    List QFilter → Except McpError (List String × List JVal)
  | [] => Except.ok ([], [])
  | f :: fs =>
    match findColumnByBusinessName tableInfo.2 f.column with
    | none => Except.error
        { code := BaseErrorCode.INVALID_INPUT,
          message := columnNotFoundMsg f.column tableInfo.1 }
    | some ci =>
      match processFilters tableInfo fs with
      | Except.error e => Except.error e
      | Except.ok (ws, ps) =>
        Except.ok ((ci.1 ++ " " ++ f.operator ++ " ?") :: ws,
                   mappedValue ci.2 f.value :: ps)

/-- buildQueryFromDescriptionLogic of the source. -/
def buildQueryFromDescriptionLogic (contract : DataContract)
    (description : String) : Except McpError QueryOutput :=
  match parseDescription description with
  | none => Except.error
      { code := BaseErrorCode.UNSUPPORTED_OPERATION, message := unsupportedMsg }
  | some PatResult.unsupported => Except.error
      { code := BaseErrorCode.UNSUPPORTED_OPERATION, message := unsupportedMsg }
  | some (PatResult.intent parsed) =>
    match findTableByBusinessName contract parsed.target with
    | none => Except.error
        { code := BaseErrorCode.INVALID_INPUT,
          message := tableNotFoundMsg parsed.target }
    | some tableInfo =>
      match mapResolve tableInfo parsed.columns with
      | Except.error e => Except.error e
      | Except.ok selectColumns =>
        match processFilters tableInfo parsed.filters with
        | Except.error e => Except.error e
        | Except.ok (whereClauses, params) =>
          let base := "SELECT " ++ joinSep ", " selectColumns ++
            " FROM " ++ tableInfo.1
          let withWhere :=
            if whereClauses.length > 0 then
              base ++ " WHERE " ++ joinSep " AND " whereClauses
            else base
          Except.ok { sql_query := withWhere ++ ";", params := params }

/-- Column c_id of the reference contract. -/
def custIdCol : ColumnDef :=
  { businessName := "id", description := "", dataType := "INTEGER",
    businessRules := some [] }

/-- Column c_name of the reference contract. -/
def custNameCol : ColumnDef :=
  { businessName := "Customer Name", description := "",
    dataType := "VARCHAR(100)", businessRules := some [] }

/-- Column ord_stat of the reference contract, carrying the coded-value
business rule mapping 5 to the label cancelled. -/
def ordStatCol : ColumnDef :=
  { businessName := "Order Status", description := "", dataType := "INTEGER",
    businessRules := some ["5: " ++ sq ++ "cancelled" ++ sq] }

/-- Column ord_id of the reference contract. -/
def ordIdCol : ColumnDef :=
  { businessName := "Order ID", description := "", dataType := "INTEGER",
    businessRules := some [] }

/-- Table cust_mst of the reference contract. -/
def custTable : TableDef :=
  { businessName := "Customer", description := "",
    columns := [("c_id", custIdCol), ("c_name", custNameCol)] }

/-- Table so_hdr of the reference contract. -/
def soTable : TableDef :=
  { businessName := "sales orders", description := "",
    columns := [("ord_stat", ordStatCol), ("ord_id", ordIdCol)] }

/-- The reference contract of the specification scenarios. -/
def refContract : DataContract :=
  { tables := [("cust_mst", custTable), ("so_hdr", soTable)],
    abbreviations := [] }

/-- Column whose physical name contains a question mark. -/
def oddCol : ColumnDef :=
  { businessName := "x", description := "", dataType := "",
    businessRules := none }

/-- Plain id column for the odd table. -/
def oddIdCol : ColumnDef :=
  { businessName := "id", description := "", dataType := "",
    businessRules := none }

/-- Table whose physical name and first column name contain question
marks; legal in the contract schema, whose keys are arbitrary strings. -/
def oddTable : TableDef :=
  { businessName := "customer", description := "",
    columns := [("c?", oddCol), ("c_id", oddIdCol)] }

/-- Contract exhibiting physical identifiers that contain question
marks. -/
def oddContract : DataContract :=
  { tables := [("t?", oddTable)], abbreviations := [] }

/-- Specification-side notion of first match in declaration order: r is
at some index, satisfies the predicate, and no earlier entry does. -/
def firstHit {α : Type} (Q : α → Prop) (l : List α) (r : α) : Prop :=
  ∃ i, l.get? i = some r ∧ Q r ∧
    ∀ j, j < i → ∀ x, l.get? j = some x → ¬ Q x

/-- Specification-side wording for the logical id field: physical name
ends with the underscore-id suffix or equals id. -/
def idColSpec (p : String × ColumnDef) : Prop :=
  (strL "_id") <:+ p.1.data ∨ p.1 = "id"

/-- Specification-side wording for the logical status field. -/
def statColSpec (p : String × ColumnDef) : Prop :=
  (strL "_stat") <:+ p.1.data ∨ (strL "_status") <:+ p.1.data

/-- Specification-side wording for a case-insensitive substring hit of
the requested name inside a business name. -/
def bnSub (needle whole : String) : Prop :=
  lcList needle.data <:+: lcList whole.data

/-- Filter-column resolution of a filter list, in order; none as soon as
one filter column is unresolvable. -/
def resolveFilterCols (t : TableDef) :
    List QFilter → Option (List (String × ColumnDef))
  | [] => some []
  | f :: fs =>
    match findColumnByBusinessName t f.column with
    | none => none
    | some ci =>
      match resolveFilterCols t fs with
      | none => none
      | some rest => some (ci :: rest)

/-- WHERE fragment determined by the filters and their resolved
columns. -/
def whereTemplate (filters : List QFilter)
    (fcols : List (String × ColumnDef)) : String :=
  if filters.length > 0 then
    " WHERE " ++ joinSep " AND "
      ((filters.zip fcols).map fun p => p.2.1 ++ " " ++ p.1.operator ++ " ?")
  else ""

/-- Structural decomposition of every successful output: the SQL string
is assembled from fixed text and contract-resolved physical identifiers
only, and the params are exactly the mapped filter values in filter
order.  Caller-supplied literals can reach the output only through
params. -/
def QuerySafeShape (c : DataContract) (d : String) (out : QueryOutput) : Prop :=
  ∃ (parsed : ParsedIntent) (tname : String) (tdef : TableDef)
    (sel : List String) (fcols : List (String × ColumnDef)),
    parseDescription d = some (PatResult.intent parsed) ∧
    findTableByBusinessName c parsed.target = some (tname, tdef) ∧
    (tname, tdef) ∈ c.tables ∧
    mapResolve (tname, tdef) parsed.columns = Except.ok sel ∧
    (∀ s ∈ sel, s = allColsJoined tdef ∨ ∃ cd, (s, cd) ∈ tdef.columns) ∧
    resolveFilterCols tdef parsed.filters = some fcols ∧
    fcols.length = parsed.filters.length ∧
    (∀ fc ∈ fcols, fc ∈ tdef.columns) ∧
    (∀ f ∈ parsed.filters, f.operator = "=") ∧
    out.sql_query =
      "SELECT " ++ joinSep ", " sel ++ " FROM " ++ tname ++
        whereTemplate parsed.filters fcols ++ ";" ∧
    out.params =
      (parsed.filters.zip fcols).map fun p => mappedValue p.2.2 p.1.value

/-- findSome? returns the value of the first element with some, when all
earlier elements give none. -/
theorem findSome?_first {α β : Type} (f : α → Option β) :
    ∀ (l : List α) (k : Nat) (a : α) (b : β),
      l.get? k = some a → f a = some b →
      (∀ j, j < k → ∀ x, l.get? j = some x → f x = none) →
      l.findSome? f = some b := by
  intro l
  induction l with
  | nil => intro k a b hk _ _; simp at hk
  | cons c t ih =>
    intro k a b hk hfa hbefore
    cases k with
    | zero =>
      have hac : c = a := by simpa using hk
      subst hac
      simp [List.findSome?_cons, hfa]
    | succ k =>
      have h0 : f c = none := hbefore 0 (Nat.succ_pos k) c rfl
      have ht : t.get? k = some a := hk
      simp only [List.findSome?_cons, h0]
      exact ih k a b ht hfa
        (fun j hj x hx => hbefore (j + 1) (Nat.succ_lt_succ hj) x hx)

/-- findSome? over a list on which the function is always none. -/
theorem findSome?_none {α β : Type} (f : α → Option β) :
    ∀ l : List α, (∀ a ∈ l, f a = none) → l.findSome? f = none := by
  intro l
  induction l with
  | nil => intro _; rfl
  | cons c t ih =>
    intro h
    simp only [List.findSome?_cons, h c (by simp)]
    exact ih fun x hx => h x (by simp [hx])

/-- A successful findSome? comes from some member of the list. -/
theorem findSome?_mem {α β : Type} (f : α → Option β) :
    ∀ (l : List α) (b : β), l.findSome? f = some b →
      ∃ a, a ∈ l ∧ f a = some b := by
  intro l
  induction l with
  | nil => intro b h; simp [List.findSome?_nil] at h
  | cons c t ih =>
    intro b h
    cases hc : f c with
    | some b' =>
      refine ⟨c, by simp, ?_⟩
      rw [hc]
      simpa [List.findSome?_cons, hc] using h
    | none =>
      simp only [List.findSome?_cons, hc] at h
      obtain ⟨a, ha, hfa⟩ := ih b h
      exact ⟨a, by simp [ha], hfa⟩

/-- find? characterised as the first index whose entry satisfies the
predicate. -/
theorem find?_first_iff {α : Type} (q : α → Bool) :
    ∀ (l : List α) (a : α),
      l.find? q = some a ↔
        ∃ i, l.get? i = some a ∧ q a = true ∧
          ∀ j, j < i → ∀ x, l.get? j = some x → q x = false := by
  intro l
  induction l with
  | nil => intro a; simp
  | cons c t ih =>
    intro a
    cases hqc : q c with
    | true =>
      simp only [List.find?_cons, hqc]
      constructor
      · intro h
        have hca : c = a := by simpa using h
        subst hca
        exact ⟨0, rfl, hqc, fun j hj x hx => absurd hj (Nat.not_lt_zero j)⟩
      · rintro ⟨i, hi, hqa, hb⟩
        cases i with
        | zero => simpa using hi
        | succ i => exact absurd hqc (by simp [hb 0 (Nat.succ_pos i) c rfl])
    | false =>
      simp only [List.find?_cons, hqc]
      rw [ih a]
      constructor
      · rintro ⟨i, hi, hqa, hb⟩
        refine ⟨i + 1, hi, hqa, fun j hj x hx => ?_⟩
        cases j with
        | zero =>
          have hcx : c = x := by simpa using hx
          rw [← hcx]; exact hqc
        | succ j => exact hb j (Nat.lt_of_succ_lt_succ hj) x hx
      · rintro ⟨i, hi, hqa, hb⟩
        cases i with
        | zero =>
          have : c = a := by simpa using hi
          subst this
          exact absurd hqa (by simp [hqc])
        | succ i =>
          exact ⟨i, hi, hqa, fun j hj x hx =>
            hb (j + 1) (Nat.succ_lt_succ hj) x hx⟩

/-- find? characterised through a propositional version of the
predicate. -/
theorem find?_firstHit_iff {α : Type} (q : α → Bool) (Q : α → Prop)
    (hQ : ∀ x, q x = true ↔ Q x) (l : List α) (a : α) :
    l.find? q = some a ↔ firstHit Q l a := by
  rw [find?_first_iff]
  unfold firstHit
  constructor
  · rintro ⟨i, hi, hqa, hb⟩
    exact ⟨i, hi, (hQ a).mp hqa, fun j hj x hx hQx =>
      by have := hb j hj x hx; rw [(hQ x).mpr hQx] at this; cases this⟩
  · rintro ⟨i, hi, hQa, hb⟩
    refine ⟨i, hi, (hQ a).mpr hQa, fun j hj x hx => ?_⟩
    cases hqx : q x with
    | true => exact absurd ((hQ x).mp hqx) (hb j hj x hx)
    | false => rfl

/-- containsSub decides the infix relation. -/
theorem containsSub_iff (n : List Char) :
    ∀ h : List Char, containsSub n h = true ↔ n <:+: h := by
  intro h
  induction h with
  | nil =>
    simp [containsSub, List.isEmpty_iff, List.infix_nil]
  | cons c r ih =>
    simp only [containsSub, Bool.or_eq_true, List.infix_cons_iff,
      List.isPrefixOf_iff_prefix, ih]

/-- findSome? over a nested iteration equals findSome? over the
flattened list. -/
theorem findSome?_nested {α β γ : Type} (g : α → List β) (k : β → Option γ) :
    ∀ l : List α,
      (l.findSome? fun a => (g a).findSome? k) =
        (l.flatMap g).findSome? k := by
  intro l
  induction l with
  | nil => rfl
  | cons c t ih =>
    have happ : ∀ (l1 l2 : List β),
        (l1 ++ l2).findSome? k =
          match l1.findSome? k with
          | some b => some b
          | none => l2.findSome? k := by
      intro l1
      induction l1 with
      | nil => intro l2; rfl
      | cons x r ihx =>
        intro l2
        cases hx : k x with
        | some b => simp [List.findSome?_cons, hx]
        | none => simp [List.findSome?_cons, hx, ihx]
    simp only [List.findSome?_cons, List.flatMap_cons, happ, ih]
    rfl

/-- findSome? with a guarded function is find? followed by a map. -/
theorem findSome?_guard {α β : Type} (q : α → Bool) (h : α → β) :
    ∀ l : List α,
      (l.findSome? fun a => if q a then some (h a) else none) =
        (l.find? q).map h := by
  intro l
  induction l with
  | nil => rfl
  | cons c t ih =>
    cases hc : q c with
    | true => simp [List.findSome?_cons, List.find?_cons, hc]
    | false => simp [List.findSome?_cons, List.find?_cons, hc, ih]

/-- The middle part of a double concatenation is an infix at the
character level. -/
theorem str_infix_mid (a n b : String) : n.data <:+: (a ++ n ++ b).data :=
  ⟨a.data, b.data, by simp [String.data_append]⟩

/-- A resolved column is a column of the table. -/
theorem findColumn_mem (t : TableDef) (bn : String) (r : String × ColumnDef)
    (h : findColumnByBusinessName t bn = some r) : r ∈ t.columns := by
  unfold findColumnByBusinessName at h
  cases h1 : (if lcList bn.data = strL "id" then
      t.columns.find? fun p => (strL "_id").isSuffixOf p.1.data || p.1 == "id"
    else none) with
  | some r1 =>
    simp only [h1] at h
    cases Option.some.inj h
    split at h1
    · exact List.mem_of_find?_eq_some h1
    · cases h1
  | none =>
    simp only [h1] at h
    cases h2 : (if lcList bn.data = strL "status" then
        t.columns.find? fun p => (strL "_stat").isSuffixOf p.1.data ||
          (strL "_status").isSuffixOf p.1.data
      else none) with
    | some r2 =>
      simp only [h2] at h
      cases Option.some.inj h
      split at h2
      · exact List.mem_of_find?_eq_some h2
      · cases h2
    | none =>
      simp only [h2] at h
      exact List.mem_of_find?_eq_some h

/-- A resolved table is a table of the contract. -/
theorem findTable_mem (c : DataContract) (bn : String) (r : String × TableDef)
    (h : findTableByBusinessName c bn = some r) : r ∈ c.tables :=
  List.mem_of_find?_eq_some h

/-- Successful select-column resolution yields either the wildcard
expansion or a resolved physical column name. -/
theorem resolveSelect_ok (ti : String × TableDef) (cn s : String)
    (h : resolveSelectColumn ti cn = Except.ok s) :
    s = allColsJoined ti.2 ∨
      ∃ cd, findColumnByBusinessName ti.2 cn = some (s, cd) := by
  unfold resolveSelectColumn at h
  split at h
  · exact Or.inl (Except.ok.inj h).symm
  · split at h
    · rename_i ci heq
      exact Or.inr ⟨ci.2, by rw [heq, ← (Except.ok.inj h)]⟩
    · cases h

/-- Failed select-column resolution names the column and the physical
table in an InvalidInput error. -/
theorem resolveSelect_err (ti : String × TableDef) (cn : String) (e : McpError)
    (h : resolveSelectColumn ti cn = Except.error e) :
    cn ≠ "*" ∧ findColumnByBusinessName ti.2 cn = none ∧
      e = { code := BaseErrorCode.INVALID_INPUT,
            message := columnNotFoundMsg cn ti.1 } := by
  unfold resolveSelectColumn at h
  split at h
  · cases h
  · rename_i hne
    split at h
    · cases h
    · rename_i heq
      exact ⟨hne, heq, (Except.error.inj h).symm⟩

/-- Each member of a successful select-column mapping comes from a
successful resolution of some requested column. -/
theorem mapResolve_ok_mem (ti : String × TableDef) :
    ∀ (cols : List String) (sel : List String),
      mapResolve ti cols = Except.ok sel →
      ∀ s ∈ sel, ∃ cn, cn ∈ cols ∧ resolveSelectColumn ti cn = Except.ok s := by
  intro cols
  induction cols with
  | nil =>
    intro sel h s hs
    cases (Except.ok.inj h) ▸ hs
  | cons cn rest ih =>
    intro sel h s hs
    unfold mapResolve at h
    split at h
    · cases h
    · rename_i s1 heq1
      split at h
      · cases h
      · rename_i ss heq2
        cases (Except.ok.inj h)
        rcases List.mem_cons.mp hs with hh | hh
        · exact ⟨cn, by simp, hh ▸ heq1⟩
        · obtain ⟨cn', hmem, hok⟩ := ih ss heq2 s hh
          exact ⟨cn', by simp [hmem], hok⟩

/-- A failed select-column mapping is the failure of one of the
requested columns. -/
theorem mapResolve_err (ti : String × TableDef) :
    ∀ (cols : List String) (e : McpError),
      mapResolve ti cols = Except.error e →
      ∃ cn, cn ∈ cols ∧ resolveSelectColumn ti cn = Except.error e := by
  intro cols
  induction cols with
  | nil => intro e h; cases h
  | cons cn rest ih =>
    intro e h
    unfold mapResolve at h
    split at h
    · rename_i heq
      exact ⟨cn, by simp, (Except.error.inj h) ▸ heq⟩
    · split at h
      · rename_i heq2
        obtain ⟨cn', hmem, herr⟩ := ih _ ((Except.error.inj h) ▸ heq2)
        exact ⟨cn', by simp [hmem], herr⟩
      · cases h

/-- Successful filter processing is filter-column resolution plus the
clause and parameter maps, in filter order. -/
theorem processFilters_ok (ti : String × TableDef) :
    ∀ (fs : List QFilter) (ws : List String) (ps : List JVal),
      processFilters ti fs = Except.ok (ws, ps) →
      ∃ fcols, resolveFilterCols ti.2 fs = some fcols ∧
        ws = ((fs.zip fcols).map fun p => p.2.1 ++ " " ++ p.1.operator ++ " ?") ∧
        ps = ((fs.zip fcols).map fun p => mappedValue p.2.2 p.1.value) := by
  intro fs
  induction fs with
  | nil =>
    intro ws ps h
    cases (Except.ok.inj h)
    exact ⟨[], rfl, rfl, rfl⟩
  | cons f rest ih =>
    intro ws ps h
    unfold processFilters at h
    cases hfc : findColumnByBusinessName ti.2 f.column with
    | none => simp only [hfc] at h; exact Except.noConfusion h
    | some ci =>
      simp only [hfc] at h
      cases hrec : processFilters ti rest with
      | error e => simp only [hrec] at h; exact Except.noConfusion h
      | ok wp =>
        obtain ⟨ws1, ps1⟩ := wp
        simp only [hrec] at h
        simp only [Except.ok.injEq, Prod.mk.injEq] at h
        obtain ⟨hws0, hps0⟩ := h
        subst hws0; subst hps0
        obtain ⟨fcols1, hres, hws, hps⟩ := ih ws1 ps1 hrec
        refine ⟨ci :: fcols1, ?_, by simp [hws], by simp [hps]⟩
        unfold resolveFilterCols
        rw [hfc, hres]

/-- Failed filter processing is the failure of one filter column, with
the InvalidInput error naming it and the physical table. -/
theorem processFilters_err (ti : String × TableDef) :
    ∀ (fs : List QFilter) (e : McpError),
      processFilters ti fs = Except.error e →
      ∃ f, f ∈ fs ∧ findColumnByBusinessName ti.2 f.column = none ∧
        e = { code := BaseErrorCode.INVALID_INPUT,
              message := columnNotFoundMsg f.column ti.1 } := by
  intro fs
  induction fs with
  | nil => intro e h; cases h
  | cons f rest ih =>
    intro e h
    unfold processFilters at h
    split at h
    · rename_i heq
      exact ⟨f, by simp, heq, (Except.error.inj h).symm⟩
    · split at h
      · rename_i heq2
        obtain ⟨f', hmem, hnone, he⟩ := ih _ ((Except.error.inj h) ▸ heq2)
        exact ⟨f', by simp [hmem], hnone, he⟩
      · cases h

/-- Resolved filter columns are in bijection with the filters. -/
theorem resolveFilterCols_length (t : TableDef) :
    ∀ (fs : List QFilter) (fcols : List (String × ColumnDef)),
      resolveFilterCols t fs = some fcols → fcols.length = fs.length := by
  intro fs
  induction fs with
  | nil => intro fcols h; cases (Option.some.inj h); rfl
  | cons f rest ih =>
    intro fcols h
    unfold resolveFilterCols at h
    split at h
    · cases h
    · split at h
      · cases h
      · rename_i heq2
        cases (Option.some.inj h)
        simp [ih _ heq2]

/-- Each resolved filter column is the successful resolution of some
filter. -/
theorem resolveFilterCols_mem (t : TableDef) :
    ∀ (fs : List QFilter) (fcols : List (String × ColumnDef)),
      resolveFilterCols t fs = some fcols →
      ∀ fc ∈ fcols, ∃ f, f ∈ fs ∧
        findColumnByBusinessName t f.column = some fc := by
  intro fs
  induction fs with
  | nil =>
    intro fcols h fc hfc
    cases (Option.some.inj h) ▸ hfc
  | cons f rest ih =>
    intro fcols h fc hfc
    unfold resolveFilterCols at h
    split at h
    · cases h
    · rename_i ci heq
      split at h
      · cases h
      · rename_i heq2
        cases (Option.some.inj h)
        rcases List.mem_cons.mp hfc with hh | hh
        · exact ⟨f, by simp, hh ▸ heq⟩
        · obtain ⟨f', hmem, hok⟩ := ih _ heq2 fc hh
          exact ⟨f', by simp [hmem], hok⟩

/-- Every parse result comes from a member pattern whose regex matched
the description. -/
theorem parse_cases (d : String) (r : PatResult)
    (h : parseDescription d = some r) :
    ∃ p, p ∈ supportedPatterns ∧ ∃ caps rest,
      search p.toks d.data = some (caps, rest) ∧ r = p.entities caps := by
  unfold parseDescription at h
  obtain ⟨p, hp, hfp⟩ := findSome?_mem _ _ _ h
  cases hs : search p.toks d.data with
  | none => rw [hs] at hfp; cases hfp
  | some m =>
    rw [hs] at hfp
    exact ⟨p, hp, m.1, m.2, hs, (Option.some.inj hfp).symm⟩

/-- Every filter of every parsed intent carries the equality
operator. -/
theorem parse_filters_op (d : String) (i : ParsedIntent)
    (h : parseDescription d = some (PatResult.intent i)) :
    ∀ f ∈ i.filters, f.operator = "=" := by
  obtain ⟨p, hp, caps, rest, hs, hr⟩ := parse_cases d _ h
  simp only [supportedPatterns, List.mem_cons, List.not_mem_nil, or_false] at hp
  rcases hp with rfl | rfl | rfl | rfl | rfl | rfl <;>
    simp only [pat1, pat2, pat3, pat4, pat5, pat6] at hr
  · cases hr; intro f hf; rw [List.mem_singleton] at hf; subst hf; rfl
  · cases hr; intro f hf; rw [List.mem_singleton] at hf; subst hf; rfl
  · cases hr; intro f hf; simp at hf
  · cases hr; intro f hf; rw [List.mem_singleton] at hf; subst hf; rfl
  · cases hr
  · cases hr

/-- Every successful call decomposes into parse, table resolution,
column resolution and assembly from contract identifiers only. -/
theorem build_ok_shape (c : DataContract) (d : String) (out : QueryOutput)
    (h : buildQueryFromDescriptionLogic c d = Except.ok out) :
    QuerySafeShape c d out := by
  unfold buildQueryFromDescriptionLogic at h
  cases hp : parseDescription d with
  | none => simp only [hp] at h; exact Except.noConfusion h
  | some pr =>
    cases pr with
    | unsupported => simp only [hp] at h; exact Except.noConfusion h
    | intent parsed =>
      simp only [hp] at h
      cases ht : findTableByBusinessName c parsed.target with
      | none => simp only [ht] at h; exact Except.noConfusion h
      | some ti =>
        simp only [ht] at h
        cases hm : mapResolve ti parsed.columns with
        | error e => simp only [hm] at h; exact Except.noConfusion h
        | ok sel =>
          simp only [hm] at h
          cases hf : processFilters ti parsed.filters with
          | error e => simp only [hf] at h; exact Except.noConfusion h
          | ok wp =>
            obtain ⟨ws, ps⟩ := wp
            simp only [hf] at h
            obtain ⟨fcols, hres, hws, hps⟩ := processFilters_ok ti _ ws ps hf
            have hlen : fcols.length = parsed.filters.length :=
              resolveFilterCols_length ti.2 _ fcols hres
            have hwslen : ws.length = parsed.filters.length := by
              rw [hws, List.length_map, List.length_zip, hlen]
              exact Nat.min_self _
            have hout : out =
                { sql_query :=
                    (if ws.length > 0 then
                      ("SELECT " ++ joinSep ", " sel ++ " FROM " ++ ti.1) ++
                        " WHERE " ++ joinSep " AND " ws
                     else "SELECT " ++ joinSep ", " sel ++ " FROM " ++ ti.1) ++ ";",
                  params := ps } := by
              exact (Except.ok.inj h).symm
            refine ⟨parsed, ti.1, ti.2, sel, fcols, hp, ht, ?_, ?_, ?_, hres,
              hlen, ?_, parse_filters_op d parsed hp, ?_, ?_⟩
            · exact findTable_mem c parsed.target ti ht
            · exact hm
            · intro s hs
              obtain ⟨cn, _, hok⟩ := mapResolve_ok_mem ti parsed.columns sel hm s hs
              rcases resolveSelect_ok ti cn s hok with hl | ⟨cd, hfind⟩
              · exact Or.inl hl
              · exact Or.inr ⟨cd, findColumn_mem ti.2 cn (s, cd) hfind⟩
            · intro fc hfc
              obtain ⟨f, _, hfind⟩ :=
                resolveFilterCols_mem ti.2 parsed.filters fcols hres fc hfc
              exact findColumn_mem ti.2 f.column fc hfind
            · rw [hout]
              show (if ws.length > 0 then
                      ("SELECT " ++ joinSep ", " sel ++ " FROM " ++ ti.1) ++
                        " WHERE " ++ joinSep " AND " ws
                    else "SELECT " ++ joinSep ", " sel ++ " FROM " ++ ti.1) ++ ";" =
                  "SELECT " ++ joinSep ", " sel ++ " FROM " ++ ti.1 ++
                    whereTemplate parsed.filters fcols ++ ";"
              rw [whereTemplate]
              by_cases hpos : parsed.filters.length > 0
              · rw [if_pos hpos,
                  if_pos (show ws.length > 0 by rw [hwslen]; exact hpos)]
                rw [hws]
                simp [String.append_assoc]
              · rw [if_neg hpos,
                  if_neg (show ¬ ws.length > 0 by rw [hwslen]; exact hpos)]
                simp [String.append_empty]
            · rw [hout, hps]

/-- Number of question marks distributes over append. -/
theorem cntQ_append (a b : String) : cntQ (a ++ b) = cntQ a + cntQ b := by
  simp [cntQ, String.data_append, List.count_append]

/-- A string has no question marks iff the character is absent. -/
theorem cntQ_zero_iff (s : String) : cntQ s = 0 ↔ '?' ∉ s.data := by
  simp [cntQ, List.count_eq_zero]

/-- Joining question-mark-free parts with a question-mark-free separator
gives a question-mark-free string. -/
theorem joinSep_cnt_zero (sep : String) (hsep : cntQ sep = 0) :
    ∀ l : List String, (∀ x ∈ l, cntQ x = 0) → cntQ (joinSep sep l) = 0 := by
  intro l
  induction l with
  | nil => intro _; simp [joinSep, cntQ]
  | cons x r ih =>
    intro hall
    cases r with
    | nil => simpa [joinSep] using hall x (by simp)
    | cons y rr =>
      rw [joinSep, cntQ_append, cntQ_append, hall x (by simp), hsep,
        ih fun z hz => hall z (by simp [hz])]

/-- Joining parts holding one question mark each with a clean separator
gives as many question marks as parts. -/
theorem joinSep_cnt_ones (sep : String) (hsep : cntQ sep = 0) :
    ∀ l : List String, (∀ x ∈ l, cntQ x = 1) →
      cntQ (joinSep sep l) = l.length := by
  intro l
  induction l with
  | nil => intro _; simp [joinSep, cntQ]
  | cons x r ih =>
    intro hall
    cases r with
    | nil => simpa [joinSep] using hall x (by simp)
    | cons y rr =>
      rw [joinSep, cntQ_append, cntQ_append, hall x (by simp), hsep,
        ih fun z hz => hall z (by simp [hz])]
      simp [Nat.add_comm]

/-- The requested term sits inside the table-not-found message. -/
theorem tableMsg_infix (t : String) : t.data <:+: (tableNotFoundMsg t).data :=
  ⟨("Could not find a table matching " ++ sq).data, (sq ++ ".").data, by
    simp [tableNotFoundMsg, String.data_append, List.append_assoc]⟩

/-- The requested column term sits inside the column-not-found
message. -/
theorem columnMsg_infix_col (cn t : String) :
    cn.data <:+: (columnNotFoundMsg cn t).data :=
  ⟨("Could not find a column matching " ++ sq).data,
   (sq ++ " in table " ++ sq ++ t ++ sq ++ ".").data, by
    simp [columnNotFoundMsg, String.data_append, List.append_assoc]⟩

/-- The physical table name sits inside the column-not-found message. -/
theorem columnMsg_infix_tab (cn t : String) :
    t.data <:+: (columnNotFoundMsg cn t).data :=
  ⟨("Could not find a column matching " ++ sq ++ cn ++ sq ++
      " in table " ++ sq).data, (sq ++ ".").data, by
    simp [columnNotFoundMsg, String.data_append, List.append_assoc]⟩

/-- C1: on every success, no caller literal is concatenated into
sql_query: the statement decomposes into fixed text and physical
identifiers resolved from the contract (the table name is a key of
contract.tables, every emitted column name a key of the resolved table),
and the caller-supplied filter literals appear exactly as the mapped
params list. -/
theorem claim_C1 (c : DataContract) (d : String) (out : QueryOutput)
    (h : buildQueryFromDescriptionLogic c d = Except.ok out) :
    QuerySafeShape c d out :=
  build_ok_shape c d out h

/-- Witness for C1 at the first reference scenario. -/
theorem claim_C1_witness :
    buildQueryFromDescriptionLogic refContract
        "Show me the Customer Name for the customer with ID 4." =
      Except.ok { sql_query := "SELECT c_name FROM cust_mst WHERE c_id = ?;",
                  params := [JVal.str "4"] } ∧
    QuerySafeShape refContract
      "Show me the Customer Name for the customer with ID 4."
      { sql_query := "SELECT c_name FROM cust_mst WHERE c_id = ?;",
        params := [JVal.str "4"] } :=
  ⟨rfl, claim_C1 refContract
    "Show me the Customer Name for the customer with ID 4."
    { sql_query := "SELECT c_name FROM cust_mst WHERE c_id = ?;",
      params := [JVal.str "4"] } rfl⟩

/-- C2 fails as stated: physical identifiers are arbitrary strings, and
an identifier containing a question mark inflates the count.  On
oddContract the engine succeeds with three question marks in sql_query
but a single parameter. -/
theorem claim_C2_counterexample :
    buildQueryFromDescriptionLogic oddContract
        "Show me the x for the customer with ID 4." =
      Except.ok { sql_query := "SELECT c? FROM t? WHERE c_id = ?;",
                  params := [JVal.str "4"] } ∧
    cntQ "SELECT c? FROM t? WHERE c_id = ?;" ≠
      ([JVal.str "4"] : List JVal).length :=
  ⟨rfl, by decide⟩

/-- C2 as amended: provided no physical table or column name of the
contract contains a question mark, the number of question marks in
sql_query equals params.length, and the i-th parameter is the mapped
value of the i-th filter. -/
theorem claim_C2 (c : DataContract) (d : String) (out : QueryOutput)
    (hclean : ∀ p ∈ c.tables,
      ('?' ∉ p.1.data) ∧ ∀ q ∈ p.2.columns, '?' ∉ q.1.data)
    (h : buildQueryFromDescriptionLogic c d = Except.ok out) :
    cntQ out.sql_query = out.params.length ∧ QuerySafeShape c d out := by
  have hs := build_ok_shape c d out h
  refine ⟨?_, hs⟩
  obtain ⟨parsed, tname, tdef, sel, fcols, hp, ht, hmem, hm, hsel, hres,
    hlen, hfmem, hop, hsql, hparams⟩ := hs
  have htnameClean : '?' ∉ tname.data := (hclean (tname, tdef) hmem).1
  have hcolsClean : ∀ q ∈ tdef.columns, '?' ∉ q.1.data :=
    (hclean (tname, tdef) hmem).2
  have hselClean : ∀ s ∈ sel, cntQ s = 0 := by
    intro s hsmem
    rcases hsel s hsmem with hwild | ⟨cd, hmemcol⟩
    · rw [hwild]
      apply joinSep_cnt_zero ", " (by decide)
      intro x hx
      obtain ⟨pq, hpq, hname⟩ := List.mem_map.mp hx
      rw [← hname, cntQ_zero_iff]
      exact hcolsClean pq hpq
    · rw [cntQ_zero_iff]
      exact hcolsClean (s, cd) hmemcol
  have hzip : ∀ p ∈ parsed.filters.zip fcols,
      cntQ (p.2.1 ++ " " ++ p.1.operator ++ " ?") = 1 := by
    intro p hpz
    obtain ⟨hf1, hf2⟩ := List.of_mem_zip hpz
    rw [cntQ_append, cntQ_append, cntQ_append, hop p.1 hf1,
      (cntQ_zero_iff p.2.1).mpr (hcolsClean p.2 (hfmem p.2 hf2))]
    decide
  have hWT : cntQ (whereTemplate parsed.filters fcols) =
      (parsed.filters.zip fcols).length := by
    rw [whereTemplate]
    by_cases hpos : parsed.filters.length > 0
    · rw [if_pos hpos, cntQ_append,
        show cntQ " WHERE " = 0 from by decide,
        joinSep_cnt_ones " AND " (by decide) _
          (fun x hx => by
            obtain ⟨p, hpz, hpe⟩ := List.mem_map.mp hx
            rw [← hpe]; exact hzip p hpz),
        List.length_map]
      omega
    · rw [if_neg hpos,
        List.length_eq_zero.mp (Nat.eq_zero_of_not_pos hpos)]
      simp [cntQ]
  rw [hsql, hparams]
  simp only [cntQ_append]
  rw [show cntQ "SELECT " = 0 from by decide,
    joinSep_cnt_zero ", " (by decide) sel hselClean,
    show cntQ " FROM " = 0 from by decide,
    (cntQ_zero_iff tname).mpr htnameClean,
    show cntQ ";" = 0 from by decide, hWT, List.length_map]
  omega

/-- Witness for C2 at the first reference scenario. -/
theorem claim_C2_witness :
    cntQ "SELECT c_name FROM cust_mst WHERE c_id = ?;" =
      ([JVal.str "4"] : List JVal).length ∧
    (∀ p ∈ refContract.tables,
      ('?' ∉ p.1.data) ∧ ∀ q ∈ p.2.columns, '?' ∉ q.1.data) ∧
    QuerySafeShape refContract
      "Show me the Customer Name for the customer with ID 4."
      { sql_query := "SELECT c_name FROM cust_mst WHERE c_id = ?;",
        params := [JVal.str "4"] } := by
  have hmain := claim_C2 refContract
    "Show me the Customer Name for the customer with ID 4."
    { sql_query := "SELECT c_name FROM cust_mst WHERE c_id = ?;",
      params := [JVal.str "4"] } (by decide) rfl
  exact ⟨hmain.1, by decide, hmain.2⟩

/-- C3: the two reference scenarios of the specification, evaluated on
the reference contract, produce exactly the documented statements and
parameter lists, with the string parameter of scenario one and the
rule-mapped numeric parameter of scenario two. -/
theorem claim_C3 :
    buildQueryFromDescriptionLogic refContract
        "Show me the Customer Name for the customer with ID 4." =
      Except.ok { sql_query := "SELECT c_name FROM cust_mst WHERE c_id = ?;",
                  params := [JVal.str "4"] } ∧
    buildQueryFromDescriptionLogic refContract
        "Which sales orders are cancelled?" =
      Except.ok { sql_query := "SELECT ord_id FROM so_hdr WHERE ord_stat = ?;",
                  params := [JVal.num 5] } :=
  ⟨rfl, rfl⟩

/-- C4: parseDescription evaluates its patterns in fixed source order
against the description (the matcher itself is case-insensitive) and
returns the extraction of the first matching pattern; once a pattern
matches, later patterns are never consulted, and when no pattern matches
the parser returns the no-intent result none. -/
theorem claim_C4 (d : String) :
    (∀ (k : Nat) (p : Pattern) (caps : List (List Char)) (rest : List Char),
        supportedPatterns.get? k = some p →
        search p.toks d.data = some (caps, rest) →
        (∀ j, j < k → ∀ q, supportedPatterns.get? j = some q →
            search q.toks d.data = none) →
        parseDescription d = some (p.entities caps)) ∧
    ((∀ p ∈ supportedPatterns, search p.toks d.data = none) →
        parseDescription d = none) := by
  constructor
  · intro k p caps rest hk hs hb
    unfold parseDescription
    exact findSome?_first _ supportedPatterns k p (p.entities caps) hk
      (by rw [hs]; rfl)
      (fun j hj x hx => by rw [hb j hj x hx]; rfl)
  · intro hall
    unfold parseDescription
    exact findSome?_none _ supportedPatterns
      (fun p hp => by rw [hall p hp]; rfl)

/-- Witness for C4: the second pattern fires on the second reference
question, the first pattern having failed. -/
theorem claim_C4_witness :
    parseDescription "Which sales orders are cancelled?" =
      some (pat2.entities [strL "cancelled"]) :=
  (claim_C4 "Which sales orders are cancelled?").1 1 pat2
    [strL "cancelled"] [] rfl (by decide)
    (fun j hj q hq => by
      have hj0 : j = 0 := Nat.lt_one_iff.mp hj
      subst hj0
      have hq1 : pat1 = q := Option.some.inj hq
      rw [← hq1]
      decide)

/-- C5: table resolution returns exactly the first table in contract
order whose businessName contains the request case-insensitively; for
the logical name id, the first column whose physical name ends in the id
suffix or equals id is returned; for status, the first column whose
physical name carries one of the two status suffixes; for any other
name, resolution is exactly the first case-insensitive businessName
substring hit. -/
theorem claim_C5 :
    (∀ (c : DataContract) (bn : String) (r : String × TableDef),
        findTableByBusinessName c bn = some r ↔
          firstHit (fun p => bnSub bn p.2.businessName) c.tables r) ∧
    (∀ (t : TableDef) (bn : String) (r : String × ColumnDef),
        lcList bn.data = strL "id" → firstHit idColSpec t.columns r →
        findColumnByBusinessName t bn = some r) ∧
    (∀ (t : TableDef) (bn : String) (r : String × ColumnDef),
        lcList bn.data = strL "status" → firstHit statColSpec t.columns r →
        findColumnByBusinessName t bn = some r) ∧
    (∀ (t : TableDef) (bn : String) (r : String × ColumnDef),
        lcList bn.data ≠ strL "id" → lcList bn.data ≠ strL "status" →
        (findColumnByBusinessName t bn = some r ↔
          firstHit (fun p => bnSub bn p.2.businessName) t.columns r)) := by
  have hQsub : ∀ (bn : String) (p : String × ColumnDef),
      lcIncludes p.2.businessName.data bn.data = true ↔
        bnSub bn p.2.businessName := by
    intro bn p
    rw [lcIncludes, containsSub_iff]
    exact Iff.rfl
  have hQid : ∀ p : String × ColumnDef,
      ((strL "_id").isSuffixOf p.1.data || p.1 == "id") = true ↔
        idColSpec p := by
    intro p
    rw [Bool.or_eq_true, List.isSuffixOf_iff_suffix, beq_iff_eq]
    exact Iff.rfl
  have hQstat : ∀ p : String × ColumnDef,
      ((strL "_stat").isSuffixOf p.1.data ||
        (strL "_status").isSuffixOf p.1.data) = true ↔ statColSpec p := by
    intro p
    rw [Bool.or_eq_true, List.isSuffixOf_iff_suffix,
      List.isSuffixOf_iff_suffix]
    exact Iff.rfl
  refine ⟨?_, ?_, ?_, ?_⟩
  · intro c bn r
    unfold findTableByBusinessName
    exact find?_firstHit_iff _ _
      (fun p => by
        rw [lcIncludes, containsSub_iff]
        exact Iff.rfl) c.tables r
  · intro t bn r hid hfirst
    have hfind := (find?_firstHit_iff _ idColSpec (hQid) t.columns r).mpr hfirst
    unfold findColumnByBusinessName
    rw [if_pos hid, hfind]
  · intro t bn r hst hfirst
    have hfind :=
      (find?_firstHit_iff _ statColSpec (hQstat) t.columns r).mpr hfirst
    have hne : lcList bn.data ≠ strL "id" := by
      rw [hst]; decide
    unfold findColumnByBusinessName
    rw [if_neg hne, if_pos hst, hfind]
  · intro t bn r h1 h2
    unfold findColumnByBusinessName
    rw [if_neg h1, if_neg h2]
    exact find?_firstHit_iff _ _ (hQsub bn) t.columns r

/-- Witness for C5: the id special case resolves c_id on the reference
customer table. -/
theorem claim_C5_witness :
    findColumnByBusinessName custTable "id" = some ("c_id", custIdCol) :=
  claim_C5.2.1 custTable "id" ("c_id", custIdCol) (by decide)
    ⟨0, rfl, Or.inl (by decide),
     fun j hj _ _ => absurd hj (Nat.not_lt_zero j)⟩

/-- C6: the value mapper is exact lookup over the concatenated
occurrence lists of all business rules, in rule order and occurrence
order: the first occurrence whose label equals the raw value
case-insensitively contributes its integer code as a number, and when no
occurrence matches, or there are no rules at all, the raw value passes
through unchanged, never an error. -/
theorem claim_C6 (col : ColumnDef) (v : String) :
    mappedValue col v =
      match ((col.businessRules.getD []).flatMap fun r =>
          ruleOccs r.data).find? (fun occ => lcList occ.2 == lcList v.data) with
      | some occ => JVal.num (digitsToNat occ.1)
      | none => JVal.str v := by
  have key : findColumnValueFromBusinessRule col v =
      match ((col.businessRules.getD []).flatMap fun r =>
          ruleOccs r.data).find? (fun occ => lcList occ.2 == lcList v.data) with
      | some occ => JVal.num (digitsToNat occ.1)
      | none => JVal.str v := by
    unfold findColumnValueFromBusinessRule
    rw [findSome?_nested (fun r : String => ruleOccs r.data)
        (fun occ : List Char × List Char =>
          if lcList occ.2 == lcList v.data then
            some (digitsToNat occ.1) else none)
        (col.businessRules.getD []),
      findSome?_guard
        (fun occ : List Char × List Char => lcList occ.2 == lcList v.data)
        (fun occ => digitsToNat occ.1)]
    cases hf : ((col.businessRules.getD []).flatMap fun r =>
        ruleOccs r.data).find? (fun occ => lcList occ.2 == lcList v.data) with
    | some occ => simp [hf]
    | none => simp [hf]
  cases hbr : col.businessRules with
  | none =>
    unfold mappedValue
    simp [hbr]
  | some rs =>
    have hmv : mappedValue col v =
        if rs.length > 0 then findColumnValueFromBusinessRule col v
        else JVal.str v := by
      unfold mappedValue
      rw [hbr]
    rw [hmv]
    by_cases hlen : rs.length > 0
    · rw [if_pos hlen, ← hbr]
      exact key
    · rw [if_neg hlen]
      have hnil : rs = [] := List.length_eq_zero.mp (Nat.eq_zero_of_not_pos hlen)
      subst hnil
      simp [hbr]

/-- C7: on every contract the two join-shaped reference questions raise
UnsupportedOperation and never a resolved query, and any description on
which no pattern matches raises the same UnsupportedOperation error. -/
theorem claim_C7 :
    (∀ c : DataContract,
        buildQueryFromDescriptionLogic c
            "What was the quantity of each product sold in order number 1001?" =
          Except.error { code := BaseErrorCode.UNSUPPORTED_OPERATION,
                         message := unsupportedMsg }) ∧
    (∀ c : DataContract,
        buildQueryFromDescriptionLogic c
            "Find the name of the customer who placed order number 1004." =
          Except.error { code := BaseErrorCode.UNSUPPORTED_OPERATION,
                         message := unsupportedMsg }) ∧
    (∀ (c : DataContract) (d : String), parseDescription d = none →
        buildQueryFromDescriptionLogic c d =
          Except.error { code := BaseErrorCode.UNSUPPORTED_OPERATION,
                         message := unsupportedMsg }) := by
  refine ⟨?_, ?_, ?_⟩
  · intro c
    have hp : parseDescription
        "What was the quantity of each product sold in order number 1001?" =
          some PatResult.unsupported := rfl
    unfold buildQueryFromDescriptionLogic
    rw [hp]
  · intro c
    have hp : parseDescription
        "Find the name of the customer who placed order number 1004." =
          none := rfl
    unfold buildQueryFromDescriptionLogic
    rw [hp]
  · intro c d hp
    unfold buildQueryFromDescriptionLogic
    rw [hp]

/-- Witness for C7: a structureless description is rejected with
UnsupportedOperation. -/
theorem claim_C7_witness :
    buildQueryFromDescriptionLogic refContract "gibberish with no structure" =
      Except.error { code := BaseErrorCode.UNSUPPORTED_OPERATION,
                     message := unsupportedMsg } :=
  claim_C7.2.2 refContract "gibberish with no structure" rfl

/-- C8: each resolution failure aborts the call with InvalidInput and no
partial result; an unresolvable target yields the table message naming
the term, and an unresolvable requested or filter column yields the
column message naming both the term and the physical table it was
searched in. -/
theorem claim_C8 :
    (∀ (c : DataContract) (d : String) (parsed : ParsedIntent),
        parseDescription d = some (PatResult.intent parsed) →
        findTableByBusinessName c parsed.target = none →
        buildQueryFromDescriptionLogic c d =
          Except.error { code := BaseErrorCode.INVALID_INPUT,
                         message := tableNotFoundMsg parsed.target } ∧
          parsed.target.data <:+: (tableNotFoundMsg parsed.target).data) ∧
    (∀ (c : DataContract) (d : String) (parsed : ParsedIntent)
        (ti : String × TableDef) (e : McpError),
        parseDescription d = some (PatResult.intent parsed) →
        findTableByBusinessName c parsed.target = some ti →
        mapResolve ti parsed.columns = Except.error e →
        buildQueryFromDescriptionLogic c d = Except.error e ∧
          ∃ cn, cn ∈ parsed.columns ∧
            findColumnByBusinessName ti.2 cn = none ∧
            e = { code := BaseErrorCode.INVALID_INPUT,
                  message := columnNotFoundMsg cn ti.1 } ∧
            cn.data <:+: e.message.data ∧ ti.1.data <:+: e.message.data) ∧
    (∀ (c : DataContract) (d : String) (parsed : ParsedIntent)
        (ti : String × TableDef) (sel : List String) (e : McpError),
        parseDescription d = some (PatResult.intent parsed) →
        findTableByBusinessName c parsed.target = some ti →
        mapResolve ti parsed.columns = Except.ok sel →
        processFilters ti parsed.filters = Except.error e →
        buildQueryFromDescriptionLogic c d = Except.error e ∧
          ∃ f, f ∈ parsed.filters ∧
            findColumnByBusinessName ti.2 f.column = none ∧
            e = { code := BaseErrorCode.INVALID_INPUT,
                  message := columnNotFoundMsg f.column ti.1 } ∧
            f.column.data <:+: e.message.data ∧
            ti.1.data <:+: e.message.data) := by
  refine ⟨?_, ?_, ?_⟩
  · intro c d parsed hp ht
    refine ⟨?_, tableMsg_infix parsed.target⟩
    unfold buildQueryFromDescriptionLogic
    simp only [hp, ht]
  · intro c d parsed ti e hp ht hm
    constructor
    · unfold buildQueryFromDescriptionLogic
      simp only [hp, ht, hm]
    · obtain ⟨cn, hmem, herr⟩ := mapResolve_err ti parsed.columns e hm
      obtain ⟨hne, hnone, he⟩ := resolveSelect_err ti cn e herr
      refine ⟨cn, hmem, hnone, he, ?_, ?_⟩
      · rw [he]; exact columnMsg_infix_col cn ti.1
      · rw [he]; exact columnMsg_infix_tab cn ti.1
  · intro c d parsed ti sel e hp ht hm hf
    constructor
    · unfold buildQueryFromDescriptionLogic
      simp only [hp, ht, hm, hf]
    · obtain ⟨f, hmem, hnone, he⟩ := processFilters_err ti parsed.filters e hf
      refine ⟨f, hmem, hnone, he, ?_, ?_⟩
      · rw [he]; exact columnMsg_infix_col f.column ti.1
      · rw [he]; exact columnMsg_infix_tab f.column ti.1

/-- Witness for C8: the unknown column Foo on the reference contract. -/
theorem claim_C8_witness :
    buildQueryFromDescriptionLogic refContract
        "Show me the Foo for the customer with ID 4." =
      Except.error { code := BaseErrorCode.INVALID_INPUT,
                     message := columnNotFoundMsg "Foo" "cust_mst" } ∧
    ∃ cn, cn ∈ ["Foo"] ∧
      findColumnByBusinessName custTable cn = none ∧
      ({ code := BaseErrorCode.INVALID_INPUT,
         message := columnNotFoundMsg "Foo" "cust_mst" } : McpError) =
        { code := BaseErrorCode.INVALID_INPUT,
          message := columnNotFoundMsg cn "cust_mst" } ∧
      cn.data <:+: (columnNotFoundMsg "Foo" "cust_mst").data ∧
      "cust_mst".data <:+: (columnNotFoundMsg "Foo" "cust_mst").data :=
  claim_C8.2.1 refContract "Show me the Foo for the customer with ID 4."
    { target := "customer", columns := ["Foo"],
      filters := [{ column := "id", operator := "=", value := "4" }] }
    ("cust_mst", custTable)
    { code := BaseErrorCode.INVALID_INPUT,
      message := columnNotFoundMsg "Foo" "cust_mst" }
    rfl rfl rfl

/-- C9: the engine is deterministic: two calls with the same contract
and description give equal results, byte-identical statement and
parameters on success and the same error on failure. -/
theorem claim_C9 (c : DataContract) (d : String)
    (r1 r2 : Except McpError QueryOutput)
    (h1 : buildQueryFromDescriptionLogic c d = r1)
    (h2 : buildQueryFromDescriptionLogic c d = r2) : r1 = r2 :=
  h1.symm.trans h2

/-- Witness for C9 at the first reference scenario. -/
theorem claim_C9_witness :
    (Except.ok { sql_query := "SELECT c_name FROM cust_mst WHERE c_id = ?;",
                 params := [JVal.str "4"] } :
        Except McpError QueryOutput) =
      Except.ok { sql_query := "SELECT c_name FROM cust_mst WHERE c_id = ?;",
                  params := [JVal.str "4"] } :=
  claim_C9 refContract "Show me the Customer Name for the customer with ID 4."
    (Except.ok { sql_query := "SELECT c_name FROM cust_mst WHERE c_id = ?;",
                 params := [JVal.str "4"] })
    (Except.ok { sql_query := "SELECT c_name FROM cust_mst WHERE c_id = ?;",
                 params := [JVal.str "4"] })
    rfl rfl

/-- C10: every filter produced by any pattern carries the constant
equality operator, so every successful WHERE clause has exactly the
shape physical-column equals placeholder; the interpolated operator text
is never derived from the description. -/
theorem claim_C10 :
    (∀ (d : String) (i : ParsedIntent),
        parseDescription d = some (PatResult.intent i) →
        ∀ f ∈ i.filters, f.operator = "=") ∧
    (∀ (c : DataContract) (d : String) (out : QueryOutput),
        buildQueryFromDescriptionLogic c d = Except.ok out →
        ∃ (parsed : ParsedIntent) (tname : String) (tdef : TableDef)
          (sel : List String) (fcols : List (String × ColumnDef)),
          parseDescription d = some (PatResult.intent parsed) ∧
          findTableByBusinessName c parsed.target = some (tname, tdef) ∧
          resolveFilterCols tdef parsed.filters = some fcols ∧
          out.sql_query =
            "SELECT " ++ joinSep ", " sel ++ " FROM " ++ tname ++
              (if parsed.filters.length > 0 then
                " WHERE " ++ joinSep " AND "
                  ((parsed.filters.zip fcols).map fun p => p.2.1 ++ " = ?")
               else "") ++ ";") := by
  have hlit : ∀ x : String, x ++ " " ++ "=" ++ " ?" = x ++ " = ?" := by
    intro x
    have h1 : (" = ?" : String) = (" " ++ "=") ++ " ?" := rfl
    rw [h1, ← String.append_assoc, ← String.append_assoc]
  refine ⟨parse_filters_op, ?_⟩
  intro c d out h
  obtain ⟨parsed, tname, tdef, sel, fcols, hp, ht, _, hm, _, hres, _, _,
    hop, hsql, _⟩ := build_ok_shape c d out h
  refine ⟨parsed, tname, tdef, sel, fcols, hp, ht, hres, ?_⟩
  rw [hsql, whereTemplate]
  by_cases hpos : parsed.filters.length > 0
  · rw [if_pos hpos, if_pos hpos]
    have hmapeq :
        ((parsed.filters.zip fcols).map fun p =>
            p.2.1 ++ " " ++ p.1.operator ++ " ?") =
          ((parsed.filters.zip fcols).map fun p => p.2.1 ++ " = ?") := by
      apply List.map_congr_left
      intro p hpz
      rw [hop p.1 (List.of_mem_zip hpz).1]
      exact hlit p.2.1
    rw [hmapeq]
  · rw [if_neg hpos, if_neg hpos]

/-- Witness for C10: the filter of the second reference question. -/
theorem claim_C10_witness :
    QFilter.operator { column := "status", operator := "=",
                       value := "cancelled" } = "=" :=
  claim_C10.1 "Which sales orders are cancelled?"
    { target := "sales orders", columns := ["id"],
      filters := [{ column := "status", operator := "=",
                    value := "cancelled" }] }
    rfl
    { column := "status", operator := "=", value := "cancelled" }
    (List.mem_singleton.mpr rfl)

/-- Consuming a literal never lengthens the input. -/
theorem lcDrop_length : ∀ (l s r : List Char),
    lcDrop l s = some r → r.length ≤ s.length := by
  intro l
  induction l with
  | nil =>
    intro s r h
    cases Option.some.inj h
    exact Nat.le_refl _
  | cons c ls ih =>
    intro s r h
    cases s with
    | nil => cases h
    | cons c2 cs =>
      unfold lcDrop at h
      split at h
      · exact Nat.le_trans (ih cs r h) (Nat.le_succ _)
      · cases h

/-- The lazy star leaves no more input than it received, provided the
continuation does the same. -/
theorem lazyRun_length (k : List Char → Option MatchRes)
    (hk : ∀ s caps r, k s = some (caps, r) → r.length ≤ s.length) :
    ∀ (s : List Char) (caps : List (List Char)) (r : List Char),
      lazyRun k s = some (caps, r) → r.length ≤ s.length := by
  intro s
  induction s with
  | nil =>
    intro caps r h
    unfold lazyRun at h
    cases hk0 : k [] with
    | some m =>
      obtain ⟨caps2, r2⟩ := m
      rw [hk0] at h
      have h2 : (([] : List Char) :: caps2, r2) = (caps, r) := Option.some.inj h
      have hr : r2 = r := congrArg Prod.snd h2
      rw [← hr]
      exact hk [] caps2 r2 hk0
    | none => rw [hk0] at h; cases h
  | cons c cs ih =>
    intro caps r h
    unfold lazyRun at h
    cases hk1 : k (c :: cs) with
    | some m =>
      obtain ⟨caps2, r2⟩ := m
      rw [hk1] at h
      have h2 : (([] : List Char) :: caps2, r2) = (caps, r) := Option.some.inj h
      have hr : r2 = r := congrArg Prod.snd h2
      rw [← hr]
      exact hk (c :: cs) caps2 r2 hk1
    | none =>
      rw [hk1] at h
      cases hl : lazyRun k cs with
      | none => rw [hl] at h; cases h
      | some m =>
        obtain ⟨caps2, r2⟩ := m
        rw [hl] at h
        cases caps2 with
        | nil => cases h
        | cons cap caps3 =>
          have h2 : ((c :: cap) :: caps3, r2) = (caps, r) := Option.some.inj h
          have hr : r2 = r := congrArg Prod.snd h2
          rw [← hr]
          exact Nat.le_trans (ih (cap :: caps3) r2 hl) (Nat.le_succ _)

/-- The greedy digit run consumes at least one character, provided the
continuation never lengthens the input. -/
theorem digitsRun_length (k : List Char → Option MatchRes)
    (hk : ∀ s caps r, k s = some (caps, r) → r.length ≤ s.length) :
    ∀ (s : List Char) (caps : List (List Char)) (r : List Char),
      digitsRun k s = some (caps, r) → r.length < s.length := by
  intro s
  induction s with
  | nil => intro caps r h; cases h
  | cons c cs ih =>
    intro caps r h
    unfold digitsRun at h
    by_cases hdig : c.isDigit = true
    · rw [if_pos hdig] at h
      cases hd : digitsRun k cs with
      | some m =>
        obtain ⟨caps2, r2⟩ := m
        rw [hd] at h
        cases caps2 with
        | nil =>
          cases hkr : k cs with
          | some m2 =>
            obtain ⟨caps3, r3⟩ := m2
            rw [hkr] at h
            have h2 : ([c] :: caps3, r3) = (caps, r) := Option.some.inj h
            have hr : r3 = r := congrArg Prod.snd h2
            rw [← hr]
            exact Nat.lt_succ_of_le (hk cs caps3 r3 hkr)
          | none => rw [hkr] at h; cases h
        | cons cap caps3 =>
          have h2 : ((c :: cap) :: caps3, r2) = (caps, r) := Option.some.inj h
          have hr : r2 = r := congrArg Prod.snd h2
          rw [← hr]
          exact Nat.lt_succ_of_lt (ih (cap :: caps3) r2 hd)
      | none =>
        rw [hd] at h
        cases hkr : k cs with
        | some m2 =>
          obtain ⟨caps3, r3⟩ := m2
          rw [hkr] at h
          have h2 : ([c] :: caps3, r3) = (caps, r) := Option.some.inj h
          have hr : r3 = r := congrArg Prod.snd h2
          rw [← hr]
          exact Nat.lt_succ_of_le (hk cs caps3 r3 hkr)
        | none => rw [hkr] at h; cases h
    · rw [if_neg hdig] at h
      cases h

/-- The whitespace star leaves no more input than it received. -/
theorem wsRun_length (k : List Char → Option MatchRes)
    (hk : ∀ s caps r, k s = some (caps, r) → r.length ≤ s.length) :
    ∀ (s : List Char) (caps : List (List Char)) (r : List Char),
      wsRun k s = some (caps, r) → r.length ≤ s.length := by
  intro s
  induction s with
  | nil => intro caps r h; exact hk [] caps r h
  | cons c cs ih =>
    intro caps r h
    unfold wsRun at h
    by_cases hws : isWsChar c = true
    · rw [if_pos hws] at h
      cases hw : wsRun k cs with
      | some m =>
        rw [hw] at h
        have hm : m = (caps, r) := Option.some.inj h
        rw [hm] at hw
        exact Nat.le_trans (ih caps r hw) (Nat.le_succ _)
      | none =>
        rw [hw] at h
        exact hk (c :: cs) caps r h
    · rw [if_neg hws] at h
      exact hk (c :: cs) caps r h

/-- The optional question mark leaves no more input than it received. -/
theorem optQRun_length (k : List Char → Option MatchRes)
    (hk : ∀ s caps r, k s = some (caps, r) → r.length ≤ s.length) :
    ∀ (s : List Char) (caps : List (List Char)) (r : List Char),
      optQRun k s = some (caps, r) → r.length ≤ s.length := by
  intro s
  cases s with
  | nil => intro caps r h; exact hk [] caps r h
  | cons c cs =>
    intro caps r h
    have h2 : (if c = '?' then
        (match k cs with
         | some m => some m
         | none => k (c :: cs))
      else k (c :: cs)) = some (caps, r) := h
    by_cases hq : c = '?'
    · rw [if_pos hq] at h2
      cases hkr : k cs with
      | some m =>
        rw [hkr] at h2
        have hm : m = (caps, r) := Option.some.inj h2
        rw [hm] at hkr
        exact Nat.le_trans (hk cs caps r hkr) (Nat.le_succ _)
      | none =>
        rw [hkr] at h2
        exact hk (c :: cs) caps r h2
    · rw [if_neg hq] at h2
      exact hk (c :: cs) caps r h2

/-- A match leaves no more input than it received. -/
theorem run_length : ∀ (toks : List Tok) (s : List Char)
    (caps : List (List Char)) (r : List Char),
    run toks s = some (caps, r) → r.length ≤ s.length := by
  intro toks
  induction toks with
  | nil =>
    intro s caps r h
    cases Option.some.inj h
    exact Nat.le_refl _
  | cons t ts ih =>
    intro s caps r h
    cases t with
    | lit l =>
      unfold run at h
      cases hld : lcDrop l s with
      | some s2 =>
        rw [hld] at h
        exact Nat.le_trans (ih s2 caps r h) (lcDrop_length l s s2 hld)
      | none => rw [hld] at h; cases h
    | lazyStar => exact lazyRun_length (run ts) (fun a b cc => ih a b cc) s caps r h
    | digits =>
      exact Nat.le_of_lt
        (digitsRun_length (run ts) (fun a b cc => ih a b cc) s caps r h)
    | wsStar => exact wsRun_length (run ts) (fun a b cc => ih a b cc) s caps r h
    | optQ => exact optQRun_length (run ts) (fun a b cc => ih a b cc) s caps r h
    | charSet cset =>
      cases s with
      | nil => exact Option.noConfusion h
      | cons c s2 =>
        have h2 : (if cset.contains c then run ts s2 else none) =
            some (caps, r) := h
        by_cases hc : cset.contains c = true
        · rw [if_pos hc] at h2
          exact Nat.le_trans (ih s2 caps r h2) (Nat.le_succ _)
        · rw [if_neg hc] at h2
          exact Option.noConfusion h2
    | endAnchor =>
      cases s with
      | nil => exact ih [] caps r h
      | cons c s2 => exact Option.noConfusion h

/-- A match of the business-rule regex consumes at least one
character. -/
theorem run_ruleToks_length (s : List Char) (caps : List (List Char))
    (r : List Char) (h : run ruleToks s = some (caps, r)) :
    r.length < s.length :=
  digitsRun_length
    (run [Tok.lit [Char.ofNat 58], Tok.wsStar, Tok.charSet [qc],
      Tok.lazyStar, Tok.charSet [qc]])
    (fun a b cc => run_length _ a b cc) s caps r h

/-- A search hit of the business-rule regex consumes at least one
character. -/
theorem search_ruleToks_length : ∀ (s : List Char)
    (caps : List (List Char)) (r : List Char),
    search ruleToks s = some (caps, r) → r.length < s.length := by
  intro s
  induction s with
  | nil =>
    intro caps r h
    exact absurd (run_ruleToks_length [] caps r h) (by simp)
  | cons c cs ih =>
    intro caps r h
    unfold search at h
    cases hr : run ruleToks (c :: cs) with
    | some m =>
      rw [hr] at h
      have hm : m = (caps, r) := Option.some.inj h
      rw [hm] at hr
      exact run_ruleToks_length (c :: cs) caps r hr
    | none =>
      rw [hr] at h
      exact Nat.lt_succ_of_lt (ih caps r h)

/-- The occurrence scan is fuel-insensitive above the input length, so
the fuel chosen in ruleOccs never truncates the occurrence list. -/
theorem ruleOccsF_stable : ∀ (n : Nat) (s : List Char) (f1 f2 : Nat),
    s.length ≤ n → s.length < f1 → s.length < f2 →
    ruleOccsF f1 s = ruleOccsF f2 s := by
  intro n
  induction n with
  | zero =>
    intro s f1 f2 hn h1 h2
    have hs : s = [] := List.length_eq_zero.mp (Nat.le_zero.mp hn)
    subst hs
    obtain ⟨g1, rfl⟩ := Nat.exists_eq_succ_of_ne_zero (Nat.pos_iff_ne_zero.mp h1)
    obtain ⟨g2, rfl⟩ := Nat.exists_eq_succ_of_ne_zero (Nat.pos_iff_ne_zero.mp h2)
    rfl
  | succ n ih =>
    intro s f1 f2 hn h1 h2
    obtain ⟨g1, rfl⟩ := Nat.exists_eq_succ_of_ne_zero
      (Nat.pos_iff_ne_zero.mp (Nat.lt_of_le_of_lt (Nat.zero_le _) h1))
    obtain ⟨g2, rfl⟩ := Nat.exists_eq_succ_of_ne_zero
      (Nat.pos_iff_ne_zero.mp (Nat.lt_of_le_of_lt (Nat.zero_le _) h2))
    unfold ruleOccsF
    cases hs : search ruleToks s with
    | none => rfl
    | some m =>
      obtain ⟨caps, rest⟩ := m
      have hlt : rest.length < s.length :=
        search_ruleToks_length s caps rest hs
      cases caps with
      | nil => rfl
      | cons code caps2 =>
        cases caps2 with
        | nil => rfl
        | cons label caps3 =>
          cases caps3 with
          | nil =>
            show (code, label) :: ruleOccsF g1 rest =
              (code, label) :: ruleOccsF g2 rest
            rw [ih rest g1 g2
              (Nat.le_of_lt_succ (Nat.lt_of_lt_of_le hlt hn))
              (Nat.lt_of_lt_of_le hlt (Nat.le_of_lt_succ h1))
              (Nat.lt_of_lt_of_le hlt (Nat.le_of_lt_succ h2))]
          | cons _ _ => rfl

end Concord
